import Mathlib

/-!
Verification development for the Monday repository: a shallow embedding of
the configuration model, the lifecycle root, the proxy allocation logic,
the runner environment composition, and the HTTP retry helper, together
with theorems settling the specification claims.
-/

namespace Monday

/-! ## Configuration model (pkg/config) -/

/-- The sentinel executable name selecting the Go build-and-run flow. -/
def ExecutableGo : String := "go"

def ForwarderKubernetes : String := "kubernetes"

def ForwarderKubernetesRemote : String := "kubernetes-remote"

def ForwarderSSH : String := "ssh"

def ForwarderSSHRemote : String := "ssh-remote"

/-- A Go `map[string]bool` is embedded as an association list with a
first-match lookup; the keys of the literals below are pairwise distinct. -/
def lookupBoolMap (m : List (String × Bool)) (k : String) : Option Bool :=
  (m.find? (fun p => p.1 = k)).map (fun p => p.2)

/-- AvailableForwarders lists all ready-to-use forwarders. -/
def AvailableForwarders : List (String × Bool) :=
  [(ForwarderKubernetes, true), (ForwarderKubernetesRemote, true),
   (ForwarderSSH, true), (ForwarderSSHRemote, true)]

/-- ProxifiedForwarders lists all forwarders that will use the proxy. -/
def ProxifiedForwarders : List (String × Bool) :=
  [(ForwarderKubernetes, true), (ForwarderKubernetesRemote, true),
   (ForwarderSSH, true)]

/-- Application represents application information (Go `config.Application`). -/
structure Application where
  name : String
  path : String
  executable : String
  hostname : String
  watch : Bool
  env : List (String × String)
  args : List String

/-- `Application.GetPath` from the source.  The filesystem check
`os.Stat(path)`/`os.IsNotExist` is abstracted as the predicate
`statExists`, and `os.Getenv("GOPATH")` as the argument `gopath`. -/
def Application.GetPath (a : Application) (statExists : String → Bool)
    (gopath : String) : String :=
  if a.executable = ExecutableGo then
    if statExists a.path then a.path
    else gopath ++ "/src/" ++ a.path
  else a.path

/-- ForwardValues represents the available values for each forward type. -/
structure ForwardValues where
  context : String
  namespc : String
  labels : List (String × String)
  hostname : String
  ports : List String
  remote : String
  args : List String

/-- Forward from the source (`config.Forward`). -/
structure Forward where
  name : String
  type : String
  values : ForwardValues

/-- IsProxified indicates if the current forward rule will use the proxy. -/
def Forward.IsProxified (f : Forward) : Bool :=
  match lookupBoolMap ProxifiedForwarders f.type with
  | some value => value
  | none => false

/-! ## Lifecycle root (cmd main.go) -/

/-- The component stop calls issued by `stopAll`. -/
inductive StopEvent where
  | watcher
  | forwarder
  | proxy
  | runner
deriving DecidableEq, BEq

/-- The sequence of `Stop()` calls performed by `stopAll`, in program
order: `watcher.Stop(); forwarder.Stop(); proxyfier.Stop(); runner.Stop()`. -/
def stopAllOrder : List StopEvent :=
  [StopEvent.watcher, StopEvent.forwarder, StopEvent.proxy, StopEvent.runner]

/-- `stopAll` ends with `os.Exit(0)`. -/
def stopAllExitCode : Nat := 0

/-- Top-level terminations of `main`, abstracting the external inputs
(config loading result, signals, prompt, cobra execution). -/
inductive MainScenario where
  | configLoadError
  | interrupted
  | promptInterrupted
  | rootExecuteError
deriving DecidableEq

/-- The process exit status for each scenario, read off the source:
a `config.Load` error is printed and the `Run` closure returns, so
`rootCmd.Execute()` returns nil and the process exits 0; an interrupt
signal reaches `handleExitSignal`, which calls `stopAll` and hence
`os.Exit(0)`; a `^C` during project selection calls `os.Exit(0)`;
an error from `rootCmd.Execute()` leads to `os.Exit(1)`. -/
def mainExitCode : MainScenario → Nat
  | MainScenario.configLoadError => 0
  | MainScenario.interrupted => stopAllExitCode
  | MainScenario.promptInterrupted => 0
  | MainScenario.rootExecuteError => 1

/-! ## Proxy (pkg/proxy)

The proxy implementation itself is not part of the sources at hand; only
its test file `pkg/proxy/proxy_test.go` is.  The definitions below are
modelled from the spec (allocation policy of §3 and the `AddProxyForward`
contract of §4.2), constrained by the concrete values the test file pins
down (initial cursors `9400` / `1`, cursor advancement on every call,
name-keyed map growth only on new names). -/

/-- Modelled from the spec: the runtime-only `ProxyForward` record owned
by the proxy (`pkg/proxy` is absent from src/).  Loopback proxy IPs all
have the shape `127.1.2.X`; the record stores the last byte `X` in
`proxyIPByte` (0 meaning not yet assigned) and the rendered address is
`proxyIPOf proxyIPByte`. -/
structure ProxyForward where
  name : String
  hostname : String
  proxyHostname : String
  localPort : String
  forwardPort : String
  proxyPort : Nat
  proxyIPByte : Nat
deriving DecidableEq

/-- Modelled from the spec: `NewProxyForward(name, hostname,
proxyHostname, localPort, forwardPort)` builds a record with no proxy
address assigned yet. -/
def NewProxyForward (name hostname proxyHostname localPort forwardPort : String) :
    ProxyForward :=
  { name := name, hostname := hostname, proxyHostname := proxyHostname,
    localPort := localPort, forwardPort := forwardPort,
    proxyPort := 0, proxyIPByte := 0 }

/-- Renders the loopback address `127.1.2.X` for last byte `X`. -/
def proxyIPOf (b : Nat) : String := "127.1.2." ++ toString b

/-- The rendered proxy IP of a forward. -/
def ProxyForward.proxyIP (pf : ProxyForward) : String := proxyIPOf pf.proxyIPByte

/-- Modelled from the spec: the target hostname used for the hostfile
rewrite (the `hostname` value of the forward, with `proxyHostname` as an
override when non-empty). -/
def ProxyForward.GetHostname (pf : ProxyForward) : String :=
  if pf.proxyHostname = "" then pf.hostname else pf.proxyHostname

/-- Modelled from the spec: the proxy state.  `proxyForwards` is the
name-keyed map (`name → []*ProxyForward`), embedded as an
insertion-ordered association list; `latestPort` and `ipLastByte` are the
allocation cursors; `hostfileCalls` records every `AddHost(ip, hostname)`
invocation on the hostfile editor in order, and `hostfileEntries` the
entries held by the editor (whose `AddHost` is idempotent on pairs, per
§4.1).  IPs are represented by their last byte. -/
structure ProxyState where
  proxyForwards : List (String × List ProxyForward)
  latestPort : Nat
  ipLastByte : Nat
  hostfileCalls : List (Nat × String)
  hostfileEntries : List (Nat × String)

/-- Modelled from the spec: `NewProxy` starts with no forwards, port
cursor `9400` and IP last byte `1` (values pinned by `TestNewProxy`). -/
def NewProxy : ProxyState :=
  { proxyForwards := [], latestPort := 9400, ipLastByte := 1,
    hostfileCalls := [], hostfileEntries := [] }

/-- Inserts a forward under a name in the name-keyed map: an existing
name has the forward appended to its list, a new name is added at the
end. -/
def mapInsert (m : List (String × List ProxyForward)) (k : String)
    (pf : ProxyForward) : List (String × List ProxyForward) :=
  match m with
  | [] => [(k, [pf])]
  | (k₁, l) :: rest =>
      if k₁ = k then (k₁, l ++ [pf]) :: rest
      else (k₁, l) :: mapInsert rest k pf

/-- The hostfile editor's `AddHost`, idempotent on `(ip, hostname)`
pairs (spec §4.1). -/
def hostfileAdd (entries : List (Nat × String)) (ip : Nat) (host : String) :
    List (Nat × String) :=
  if (ip, host) ∈ entries then entries else entries ++ [(ip, host)]

/-- Modelled from the spec: `AddProxyForward(name, pf)` assigns the
current cursors to the forward, registers it in the name-keyed map,
calls the hostfile editor with `(proxy_ip, target_hostname)`, and
advances both cursors.  Returns the new state together with the forward
as assigned. -/
def addProxyForwardAux (p : ProxyState) (name : String) (pf : ProxyForward) :
    ProxyState × ProxyForward :=
  let pf₁ := { pf with proxyPort := p.latestPort, proxyIPByte := p.ipLastByte }
  ({ proxyForwards := mapInsert p.proxyForwards name pf₁,
     latestPort := p.latestPort + 1,
     ipLastByte := p.ipLastByte + 1,
     hostfileCalls := p.hostfileCalls ++ [(pf₁.proxyIPByte, pf₁.GetHostname)],
     hostfileEntries := hostfileAdd p.hostfileEntries pf₁.proxyIPByte pf₁.GetHostname },
   pf₁)

/-- `AddProxyForward` proper (state effect only). -/
def AddProxyForward (p : ProxyState) (name : String) (pf : ProxyForward) :
    ProxyState := (addProxyForwardAux p name pf).1

/-- Runs a sequence of registrations in order. -/
def runRegistrations (p : ProxyState) (rs : List (String × ProxyForward)) :
    ProxyState :=
  rs.foldl (fun st r => AddProxyForward st r.1 r.2) p

/-- The `(proxy_ip, proxy_port)` pairs assigned to each registration of a
sequence, in registration order. -/
def allocationsFrom (p : ProxyState) : List (String × ProxyForward) → List (String × Nat)
  | [] => []
  | (n, pf) :: rest =>
      let st := addProxyForwardAux p n pf
      (st.2.proxyIP, st.2.proxyPort) :: allocationsFrom st.1 rest

/-- The pairs assigned starting from a fresh proxy. -/
def allocations (rs : List (String × ProxyForward)) : List (String × Nat) :=
  allocationsFrom NewProxy rs

/-- All live forwards of the proxy, in map order. -/
def livePFs (p : ProxyState) : List ProxyForward :=
  (p.proxyForwards.map Prod.snd).flatten

/-- Whether a name is already registered in the name-keyed map. -/
def hasName (m : List (String × List ProxyForward)) (k : String) : Bool :=
  m.any (fun e => e.1 = k)

/-! ## Runner environment composition (pkg/run)

The runner implementation is not part of the sources at hand; only its
test file `pkg/run/env_test.go` is.  The composition below is modelled
from the spec (§4.4 Environment composition): start from the inherited
process environment, overlay the `env_file` `KEY=VALUE` pairs (skipping
blank lines and `#` comments), then overlay the inline `env` map. -/

/-- Sets a variable in an environment, replacing an existing binding of
the same key in place and appending otherwise. -/
def setEnvVar (e : List (String × String)) (k v : String) :
    List (String × String) :=
  if e.any (fun p => p.1 = k) then
    e.map (fun p => if p.1 = k then (k, v) else p)
  else e ++ [(k, v)]

/-- Looks a key up in an environment (first binding wins; `setEnvVar`
replaces in place, so the first binding is also the latest value). -/
def lookupEnv : List (String × String) → String → Option String
  | [], _ => none
  | p :: rest, k => if p.1 = k then some p.2 else lookupEnv rest k

/-- Overlays a list of bindings onto an environment, in order. -/
def overlayEnv (e : List (String × String)) (l : List (String × String)) :
    List (String × String) :=
  l.foldl (fun acc kv => setEnvVar acc kv.1 kv.2) e

/-- Splits a character list at the first `=`, if any. -/
def breakAtEq : List Char → Option (List Char × List Char)
  | [] => none
  | c :: cs =>
      if c = '=' then some ([], cs)
      else
        match breakAtEq cs with
        | none => none
        | some (k, v) => some (c :: k, v)

/-- Modelled from the spec: parsing of one `env_file` line — blank lines
and `#` comments are skipped, other lines are split at the first `=`
into a binding (lines with no `=` are ignored). -/
def parseEnvFileLine (line : String) : Option (String × String) :=
  let cs := line.data
  if cs.all Char.isWhitespace then none
  else
    match cs with
    | [] => none
    | c :: _ =>
        if c = '#' then none
        else
          match breakAtEq cs with
          | none => none
          | some (k, v) => some (String.mk k, String.mk v)

/-- Modelled from the spec: the bindings read from an `env_file`. -/
def parseEnvFile (lines : List String) : List (String × String) :=
  lines.filterMap parseEnvFileLine

/-- Modelled from the spec: the effective child environment — inherited
process environment, overlaid with the `env_file` bindings, overlaid with
the inline `env` map. -/
def composeEnv (inherited : List (String × String)) (fileLines : List String)
    (env : List (String × String)) : List (String × String) :=
  overlayEnv (overlayEnv inherited (parseEnvFile fileLines)) env

/-! ## HTTP retry helper (`withRetry`, vendored k8s rest client) -/

/-- An HTTP request; the retry logic only inspects it for nil-ness and
hands it to the retryability callback. -/
structure HttpRequest where
  url : String

/-- An HTTP response: status code and headers (`Header.Get` returns the
first value of a key, or the empty string). -/
structure HttpResponse where
  statusCode : Int
  header : List (String × List String)

/-- `http.Header.Get`. -/
def headerGet (h : List (String × List String)) (k : String) : String :=
  match h.find? (fun p => p.1 = k) with
  | some (_, v :: _) => v
  | _ => ""

/-- `retryAfterResponse()`: the artificial 500 response carrying a
`Retry-After: 1` header, used when a retryable error occurred. -/
def retryAfterResponse : HttpResponse :=
  { statusCode := 500, header := [("Retry-After", ["1"])] }

/-- `checkWait(resp)`: a 429 or any 5xx status consults the
`Retry-After` parsing (`retryAfterSeconds`, defined in another file of
the repository and abstracted here as a parameter); anything else means
no wait. -/
def checkWait (retryAfterSeconds : HttpResponse → Int × Bool)
    (resp : HttpResponse) : Int × Bool :=
  if resp.statusCode = 429 ∨ resp.statusCode ≥ 500 then retryAfterSeconds resp
  else (0, false)

/-- `getRetryReason(retries, seconds, resp, err)`. -/
def getRetryReason (retries seconds : Int) (resp : HttpResponse)
    (err : Option String) : String :=
  let message := "retries: " ++ toString retries ++ ", retry-after: " ++
    toString seconds ++ "s"
  if resp.statusCode = 429 then
    message ++ " - retry-reason: due to server-side throttling, FlowSchema UID: " ++
      headerGet resp.header ("X-Kubernetes-PF-FlowSchema-UID")
  else
    match err with
    | some e => message ++ " - retry-reason: due to retryable error, error: " ++ e
    | none => message ++ " - retry-reason: " ++ toString resp.statusCode

/-- `RetryAfter`: parameters of the next retry. -/
structure RetryAfter where
  wait : Int
  attempt : Int
  reason : String

/-- The state of a `withRetry` value; Go ints are embedded as `Int`
(both fields start at the zero value 0). -/
structure WithRetryState where
  maxRetries : Int
  attempts : Int
  retryAfter : Option RetryAfter

/-- `SetMaxRetries`: a negative argument is clamped to 0. -/
def setMaxRetries (r : WithRetryState) (m : Int) : WithRetryState :=
  { r with maxRetries := if m < 0 then 0 else m }

/-- One input to `IsNextRetry`: the HTTP request, the response, the
error, and the retryability callback `f` (each nil-able). -/
structure RetryInput where
  httpReq : Option HttpRequest
  resp : Option HttpResponse
  err : Option String
  f : Option (HttpRequest → String → Bool)

/-- `IsNextRetry`, translated clause by clause from the source.
`retryAfterSeconds` abstracts the header parsing defined elsewhere in
the repository, and `prepFails` abstracts `prepareForNextRetry` failing
(cancelled context or body-seek error).  Returns the new state and the
boolean result.  At the point `checkWait` is reached the response is
necessarily non-nil in the source; the `none` fallback there is
unreachable. -/
def isNextRetry (retryAfterSeconds : HttpResponse → Int × Bool)
    (prepFails : Bool) (r : WithRetryState) (inp : RetryInput) :
    WithRetryState × Bool :=
  match inp.httpReq with
  | none => (r, false)
  | some req =>
    if inp.resp.isNone && inp.err.isNone then (r, false)
    else
      let attempts := r.attempts + 1
      let r₁ := { r with
        attempts := attempts
        retryAfter := some { wait := 0, attempt := attempts, reason := "" } }
      if attempts > r₁.maxRetries then (r₁, false)
      else
        let errIsRetryable : Bool :=
          match inp.f, inp.err with
          | some fn, some e => fn req e
          | _, _ => false
        let resp₁ := if errIsRetryable then some retryAfterResponse else inp.resp
        if inp.err.isSome && !errIsRetryable then (r₁, false)
        else
          match resp₁ with
          | none => (r₁, false)
          | some rsp =>
            let sw := checkWait retryAfterSeconds rsp
            if ¬sw.2 then (r₁, false)
            else
              let r₂ := { r₁ with
                retryAfter := some {
                  wait := sw.1
                  attempt := attempts
                  reason := getRetryReason attempts sw.1 rsp inp.err } }
              if prepFails then (r₂, false) else (r₂, true)

/-- Runs a sequence of `IsNextRetry` calls on a `withRetry` value,
collecting the results. -/
def runRetries (retryAfterSeconds : HttpResponse → Int × Bool)
    (prepFails : Bool) (r : WithRetryState) :
    List RetryInput → WithRetryState × List Bool
  | [] => (r, [])
  | i :: rest =>
      let st := isNextRetry retryAfterSeconds prepFails r i
      let tail := runRetries retryAfterSeconds prepFails st.1 rest
      (tail.1, st.2 :: tail.2)

/-- Invariant relating the live forwards to the hostfile: every live
forward's IP byte is below the cursor, its `(proxy_ip, target_hostname)`
pair is held exactly once by the hostfile editor, every entry held by
the editor has its IP byte below the cursor, and the editor holds a pair
exactly when some `AddHost` call was made with it. -/
def ProxyInv (p : ProxyState) : Prop :=
  (∀ pf ∈ livePFs p, pf.proxyIPByte < p.ipLastByte ∧
      p.hostfileEntries.count (pf.proxyIPByte, pf.GetHostname) = 1)
  ∧ (∀ e ∈ p.hostfileEntries, e.1 < p.ipLastByte)
  ∧ (∀ e : Nat × String, e ∈ p.hostfileEntries ↔ e ∈ p.hostfileCalls)

/-- The registration sequence of `TestAddProxyForwardWhenMultiple`:
three forwards under two distinct names. -/
def testRegistrations : List (String × ProxyForward) :=
  [("test", NewProxyForward ("test") ("hostname.svc.local") ("") ("8080") ("8081")),
   ("test-2", NewProxyForward ("test-2") ("hostname2.svc.local") ("") ("8080") ("8081")),
   ("test-2", NewProxyForward ("test-2") ("hostname3.svc.local") ("") ("8081") ("8082"))]

/-- A registration sequence with three pairwise distinct names. -/
def distinctRegistrations : List (String × ProxyForward) :=
  [("test", NewProxyForward ("test") ("hostname.svc.local") ("") ("8080") ("8081")),
   ("test-2", NewProxyForward ("test-2") ("hostname2.svc.local") ("") ("8080") ("8081")),
   ("test-3", NewProxyForward ("test-3") ("hostname3.svc.local") ("") ("8081") ("8082"))]

/-- The inherited process environment of the runner test scenario. -/
def envInherited : List (String × String) :=
  [("PATH", "/usr/bin"), ("MY_ENVVAR_1", "inherited")]

/-- The env_file lines of the runner test scenario (with a comment and
blank lines to skip). -/
def envFileLines : List String :=
  ["MY_ENVFILE_VAR_1=this is ok", "# a comment", "", "   ",
   "MY_ENVFILE_VAR_2=this is really good", "MY_ENVFILE_VAR_3=great"]

/-- The inline env map of the runner test scenario. -/
def envInline : List (String × String) :=
  [("MY_ENVVAR_1", "value"), ("MY_ENVVAR_2", "My custom second value")]

/-! ## Theorems -/

/-- C1 counterexample: the claim that `Runner.Stop` is invoked before
`Forwarder.Stop` is false on the code — in `stopAll` the runner is the
last component stopped, after the forwarder (and after the proxy). -/
theorem stopAll_runner_not_before_forwarder :
    ¬ (stopAllOrder.indexOf StopEvent.runner <
       stopAllOrder.indexOf StopEvent.forwarder) := by
  decide

/-- C1 (amended): on a shutdown run, `stopAll` stops the components in
the strict order Watcher first, then Forwarder, then Proxy, then Runner;
there is no separate Hostfile stop call in `stopAll`. -/
theorem stopAll_order :
    stopAllOrder.indexOf StopEvent.watcher <
      stopAllOrder.indexOf StopEvent.forwarder
    ∧ stopAllOrder.indexOf StopEvent.forwarder <
      stopAllOrder.indexOf StopEvent.proxy
    ∧ stopAllOrder.indexOf StopEvent.proxy <
      stopAllOrder.indexOf StopEvent.runner := by
  decide

/-- C2 counterexample: the claimed exit codes are false on the code — an
interrupted execution exits through `stopAll`, which calls `os.Exit(0)`
(not 130), and a `config.Load` error is printed and the command returns,
so the process exits 0 (not 1). -/
theorem exitCode_claim_false :
    mainExitCode MainScenario.interrupted ≠ 130
    ∧ mainExitCode MainScenario.configLoadError ≠ 1 := by
  decide

/-- C2 (amended): the exit status is 0 on interrupt (via `stopAll`'s
`os.Exit(0)`), 0 when `config.Load` fails (the error is printed and the
command returns normally), 0 when project selection is interrupted, and
1 only when `rootCmd.Execute()` itself returns an error. -/
theorem exitCode_values :
    mainExitCode MainScenario.interrupted = 0
    ∧ mainExitCode MainScenario.configLoadError = 0
    ∧ mainExitCode MainScenario.promptInterrupted = 0
    ∧ mainExitCode MainScenario.rootExecuteError = 1 := by
  decide

/-- C3: `Forward.IsProxified` returns true exactly when the forward's
type is one of `kubernetes`, `kubernetes-remote`, `ssh`, and false for
`ssh-remote` and every other string. -/
theorem isProxified_iff (f : Forward) :
    f.IsProxified = true ↔
      (f.type = ForwarderKubernetes ∨ f.type = ForwarderKubernetesRemote ∨
       f.type = ForwarderSSH) := by
  obtain ⟨n, t, v⟩ := f
  by_cases h1 : t = ForwarderKubernetes
  · subst h1
    simp [Forward.IsProxified, lookupBoolMap, ProxifiedForwarders, List.find?,
      ForwarderKubernetes, ForwarderKubernetesRemote, ForwarderSSH]
  · by_cases h2 : t = ForwarderKubernetesRemote
    · subst h2
      simp [Forward.IsProxified, lookupBoolMap, ProxifiedForwarders, List.find?,
        ForwarderKubernetes, ForwarderKubernetesRemote, ForwarderSSH]
    · by_cases h3 : t = ForwarderSSH
      · subst h3
        simp [Forward.IsProxified, lookupBoolMap, ProxifiedForwarders, List.find?,
          ForwarderKubernetes, ForwarderKubernetesRemote, ForwarderSSH]
      · have g1 : ¬(ForwarderKubernetes = t) := fun h => h1 h.symm
        have g2 : ¬(ForwarderKubernetesRemote = t) := fun h => h2 h.symm
        have g3 : ¬(ForwarderSSH = t) := fun h => h3 h.symm
        simp [Forward.IsProxified, lookupBoolMap, ProxifiedForwarders, List.find?,
          h1, h2, h3, g1, g2, g3]

/-- C4: `Application.GetPath` with executable `go` and a non-existent
path returns `$GOPATH/src/<path>`; with any other executable it returns
the `path` field unchanged, regardless of existence. -/
theorem getPath_spec (a : Application) (statExists : String → Bool)
    (gopath : String) :
    (a.executable = ExecutableGo → statExists a.path = false →
        a.GetPath statExists gopath = gopath ++ "/src/" ++ a.path)
    ∧ (a.executable ≠ ExecutableGo →
        a.GetPath statExists gopath = a.path) := by
  constructor
  · intro he hs
    simp [Application.GetPath, he, hs]
  · intro he
    simp [Application.GetPath, he]

/-- C4 witness: an application with executable `go` whose path does not
exist resolves under `$GOPATH/src`, and one with another executable
keeps its path. -/
theorem getPath_spec_witness :
    ({ name := "monday"
       path := "github.com/eko/monday"
       executable := "go"
       hostname := ""
       watch := false
       env := []
       args := [] } : Application).GetPath (fun _ => false) ("/go")
      = "/go/src/github.com/eko/monday"
    ∧ ({ name := "other"
         path := "/tmp/app"
         executable := "node"
         hostname := ""
         watch := false
         env := []
         args := [] } : Application).GetPath (fun _ => false) ("/go")
      = "/tmp/app" := by
  constructor
  · exact (getPath_spec _ _ _).1 rfl rfl
  · exact (getPath_spec _ _ _).2 (by decide)

/-! ### Proxy lemmas -/

theorem addProxyForward_latestPort (p : ProxyState) (n : String) (pf : ProxyForward) :
    (AddProxyForward p n pf).latestPort = p.latestPort + 1 := rfl

theorem addProxyForward_ipLastByte (p : ProxyState) (n : String) (pf : ProxyForward) :
    (AddProxyForward p n pf).ipLastByte = p.ipLastByte + 1 := rfl

theorem addProxyForward_hostfileCalls (p : ProxyState) (n : String) (pf : ProxyForward) :
    (AddProxyForward p n pf).hostfileCalls =
      p.hostfileCalls ++ [(p.ipLastByte, pf.GetHostname)] := rfl

theorem addProxyForward_hostfileEntries (p : ProxyState) (n : String) (pf : ProxyForward) :
    (AddProxyForward p n pf).hostfileEntries =
      hostfileAdd p.hostfileEntries p.ipLastByte pf.GetHostname := rfl

theorem runRegistrations_cons (p : ProxyState) (r : String × ProxyForward)
    (rs : List (String × ProxyForward)) :
    runRegistrations p (r :: rs) = runRegistrations (AddProxyForward p r.1 r.2) rs := rfl

theorem runRegistrations_latestPort (rs : List (String × ProxyForward)) :
    ∀ p : ProxyState, (runRegistrations p rs).latestPort = p.latestPort + rs.length := by
  induction rs with
  | nil => intro p; simp [runRegistrations]
  | cons r rest ih =>
      intro p
      rw [runRegistrations_cons, ih, addProxyForward_latestPort]
      simp
      omega

theorem runRegistrations_hostfileCalls_length (rs : List (String × ProxyForward)) :
    ∀ p : ProxyState,
      (runRegistrations p rs).hostfileCalls.length = p.hostfileCalls.length + rs.length := by
  induction rs with
  | nil => intro p; simp [runRegistrations]
  | cons r rest ih =>
      intro p
      rw [runRegistrations_cons, ih, addProxyForward_hostfileCalls]
      simp
      omega

theorem allocationsFrom_eq (rs : List (String × ProxyForward)) :
    ∀ p : ProxyState,
      allocationsFrom p rs =
        (List.range rs.length).map
          (fun i => (proxyIPOf (p.ipLastByte + i), p.latestPort + i)) := by
  induction rs with
  | nil => intro p; rfl
  | cons r rest ih =>
      intro p
      obtain ⟨n, pf⟩ := r
      rw [show allocationsFrom p ((n, pf) :: rest) =
            (proxyIPOf p.ipLastByte, p.latestPort) ::
              allocationsFrom (AddProxyForward p n pf) rest from rfl]
      rw [ih (AddProxyForward p n pf)]
      rw [List.length_cons, List.range_succ_eq_map, List.map_cons, List.map_map]
      congr 1
      apply List.map_congr_left
      intro i _
      simp only [Function.comp_apply, addProxyForward_ipLastByte,
        addProxyForward_latestPort]
      have h1 : p.ipLastByte + 1 + i = p.ipLastByte + Nat.succ i := by omega
      have h2 : p.latestPort + 1 + i = p.latestPort + Nat.succ i := by omega
      rw [h1, h2]

theorem mapInsert_length_of_hasName (m : List (String × List ProxyForward))
    (k : String) (pf : ProxyForward) (h : hasName m k = true) :
    (mapInsert m k pf).length = m.length := by
  induction m with
  | nil => simp [hasName] at h
  | cons e rest ih =>
      obtain ⟨k₁, l⟩ := e
      by_cases hk : k₁ = k
      · simp [mapInsert, hk]
      · have h₂ : hasName rest k = true := by
          simpa [hasName, hk] using h
        simp [mapInsert, hk, ih h₂]

/-- C5: starting from a fresh proxy, a sequence of registrations with
pairwise distinct names is assigned, at 0-based position `i`, the proxy
IP `127.1.2.(i+1)` and the proxy port `9400 + i`; in particular all
assigned `(proxy_ip, proxy_port)` pairs are pairwise distinct. -/
theorem allocation_sequence (rs : List (String × ProxyForward))
    (_hnames : (rs.map Prod.fst).Pairwise (· ≠ ·)) :
    allocations rs =
      (List.range rs.length).map (fun i => (proxyIPOf (1 + i), 9400 + i))
    ∧ (allocations rs).Pairwise (· ≠ ·) := by
  have halloc : allocations rs =
      (List.range rs.length).map (fun i => (proxyIPOf (1 + i), 9400 + i)) := by
    unfold allocations
    rw [allocationsFrom_eq]
    rfl
  refine ⟨halloc, ?_⟩
  rw [halloc, List.pairwise_map]
  refine (List.pairwise_lt_range rs.length).imp ?_
  intro i j hij hEq
  have hsnd : 9400 + i = 9400 + j := congrArg Prod.snd hEq
  omega

/-- C5 witness: three registrations with distinct names receive ports
9400, 9401, 9402 and IPs 127.1.2.1, 127.1.2.2, 127.1.2.3, all pairwise
distinct. -/
theorem allocation_sequence_witness :
    allocations distinctRegistrations =
      (List.range distinctRegistrations.length).map
        (fun i => (proxyIPOf (1 + i), 9400 + i))
    ∧ (allocations distinctRegistrations).Pairwise (· ≠ ·) :=
  allocation_sequence distinctRegistrations (by decide)

/-- C8: proxy allocation is deterministic in the registration order —
the `(proxy_ip, proxy_port)` pairs assigned to a sequence of
registrations depend only on how many registrations precede each one, so
two runs performing the same sequence of `AddProxyForward` calls assign
identical pairs. -/
theorem allocation_deterministic (rs₁ rs₂ : List (String × ProxyForward))
    (h : rs₁.length = rs₂.length) : allocations rs₁ = allocations rs₂ := by
  unfold allocations
  rw [allocationsFrom_eq, allocationsFrom_eq, h]

/-- C8 witness: two different registration sequences of equal length
(and a fortiori two runs of the same sequence) receive identical
`(proxy_ip, proxy_port)` assignments. -/
theorem allocation_deterministic_witness :
    allocations testRegistrations = allocations distinctRegistrations :=
  allocation_deterministic testRegistrations distinctRegistrations (by decide)

/-- C9: registering under an already-registered name leaves the number
of entries of the name-keyed map unchanged, yet every registration
advances the port cursor by exactly 1; in the three-registration
scenario of `TestAddProxyForwardWhenMultiple` (two distinct names) the
map ends with 2 entries and the port cursor at 9403. -/
theorem duplicate_name_allocation :
    (∀ (p : ProxyState) (name : String) (pf : ProxyForward),
        hasName p.proxyForwards name = true →
          (AddProxyForward p name pf).proxyForwards.length = p.proxyForwards.length)
    ∧ (∀ (p : ProxyState) (name : String) (pf : ProxyForward),
        (AddProxyForward p name pf).latestPort = p.latestPort + 1)
    ∧ (runRegistrations NewProxy testRegistrations).proxyForwards.length = 2
    ∧ (runRegistrations NewProxy testRegistrations).latestPort = 9403 := by
  refine ⟨?_, ?_, ?_, ?_⟩
  · intro p name pf h
    exact mapInsert_length_of_hasName p.proxyForwards name _ h
  · intro p name pf
    rfl
  · decide
  · decide

theorem mem_flatten_mapInsert (m : List (String × List ProxyForward)) (k : String)
    (pf x : ProxyForward)
    (h : x ∈ ((mapInsert m k pf).map Prod.snd).flatten) :
    x = pf ∨ x ∈ (m.map Prod.snd).flatten := by
  induction m with
  | nil =>
      have h₁ : x ∈ ([pf] : List ProxyForward) ++ ([] : List ProxyForward) := h
      simp at h₁
      exact Or.inl h₁
  | cons e rest ih =>
      obtain ⟨k₁, l⟩ := e
      show x = pf ∨ x ∈ l ++ (rest.map Prod.snd).flatten
      by_cases hk : k₁ = k
      · have e₁ : mapInsert ((k₁, l) :: rest) k pf = (k₁, l ++ [pf]) :: rest := by
          simp [mapInsert, hk]
        rw [e₁] at h
        have h₁ : x ∈ (l ++ [pf]) ++ (rest.map Prod.snd).flatten := h
        rcases List.mem_append.mp h₁ with h₂ | h₂
        · rcases List.mem_append.mp h₂ with h₃ | h₃
          · exact Or.inr (List.mem_append.mpr (Or.inl h₃))
          · simp at h₃
            exact Or.inl h₃
        · exact Or.inr (List.mem_append.mpr (Or.inr h₂))
      · have e₁ : mapInsert ((k₁, l) :: rest) k pf = (k₁, l) :: mapInsert rest k pf := by
          simp [mapInsert, hk]
        rw [e₁] at h
        have h₁ : x ∈ l ++ ((mapInsert rest k pf).map Prod.snd).flatten := h
        rcases List.mem_append.mp h₁ with h₂ | h₂
        · exact Or.inr (List.mem_append.mpr (Or.inl h₂))
        · rcases ih h₂ with h₃ | h₃
          · exact Or.inl h₃
          · exact Or.inr (List.mem_append.mpr (Or.inr h₃))

theorem proxyInv_newProxy : ProxyInv NewProxy := by
  refine ⟨?_, ?_, ?_⟩
  · intro pf hpf
    simp [livePFs, NewProxy] at hpf
  · intro e he
    simp [NewProxy] at he
  · intro e
    simp [NewProxy]

theorem proxyInv_step (p : ProxyState) (n : String) (pf : ProxyForward)
    (h : ProxyInv p) : ProxyInv (AddProxyForward p n pf) := by
  obtain ⟨h1, h2, h3⟩ := h
  have hfresh : (p.ipLastByte, pf.GetHostname) ∉ p.hostfileEntries := by
    intro hmem
    exact absurd (h2 _ hmem) (lt_irrefl _)
  have hentries : (AddProxyForward p n pf).hostfileEntries =
      p.hostfileEntries ++ [(p.ipLastByte, pf.GetHostname)] := by
    rw [addProxyForward_hostfileEntries]
    simp [hostfileAdd, hfresh]
  have hlive : ∀ x ∈ livePFs (AddProxyForward p n pf),
      x = { pf with proxyPort := p.latestPort, proxyIPByte := p.ipLastByte }
      ∨ x ∈ livePFs p := by
    intro x hx
    exact mem_flatten_mapInsert p.proxyForwards n _ x hx
  refine ⟨?_, ?_, ?_⟩
  · intro x hx
    rcases hlive x hx with hx₁ | hx₂
    · subst hx₁
      constructor
      · show p.ipLastByte < (AddProxyForward p n pf).ipLastByte
        rw [addProxyForward_ipLastByte]
        omega
      · show List.count (p.ipLastByte, pf.GetHostname)
            (AddProxyForward p n pf).hostfileEntries = 1
        rw [hentries, List.count_append]
        have hz : p.hostfileEntries.count (p.ipLastByte, pf.GetHostname) = 0 :=
          List.count_eq_zero.mpr hfresh
        rw [hz, List.count_singleton]
        simp
    · obtain ⟨hlt, hcount⟩ := h1 x hx₂
      constructor
      · rw [addProxyForward_ipLastByte]
        omega
      · rw [hentries, List.count_append, hcount]
        have hne : ((p.ipLastByte, pf.GetHostname) : Nat × String) ≠
            (x.proxyIPByte, x.GetHostname) := by
          intro hEq
          have hfst : p.ipLastByte = x.proxyIPByte := congrArg Prod.fst hEq
          omega
        rw [List.count_singleton]
        simp [hne]
  · intro e he
    rw [hentries] at he
    rw [addProxyForward_ipLastByte]
    rcases List.mem_append.mp he with he₁ | he₂
    · have := h2 e he₁
      omega
    · simp at he₂
      subst he₂
      omega
  · intro e
    rw [hentries, addProxyForward_hostfileCalls]
    simp only [List.mem_append, List.mem_singleton]
    rw [h3 e]

theorem proxyInv_run (rs : List (String × ProxyForward)) :
    ∀ p : ProxyState, ProxyInv p → ProxyInv (runRegistrations p rs) := by
  induction rs with
  | nil => intro p h; exact h
  | cons r rest ih =>
      intro p h
      rw [runRegistrations_cons]
      exact ih _ (proxyInv_step p r.1 r.2 h)

/-- C7: over any registration sequence from a fresh proxy, the hostfile
editor is invoked exactly once per `AddProxyForward` call, and every
live `ProxyForward` has exactly one hostfile entry mapping its target
hostname to its allocated proxy IP (an entry the editor was indeed asked
to add). -/
theorem hostfile_invariant (rs : List (String × ProxyForward)) :
    (runRegistrations NewProxy rs).hostfileCalls.length = rs.length
    ∧ ∀ pf ∈ livePFs (runRegistrations NewProxy rs),
        (runRegistrations NewProxy rs).hostfileEntries.count
            (pf.proxyIPByte, pf.GetHostname) = 1
        ∧ (pf.proxyIPByte, pf.GetHostname) ∈
            (runRegistrations NewProxy rs).hostfileCalls := by
  constructor
  · rw [runRegistrations_hostfileCalls_length]
    simp [NewProxy]
  · intro pf hpf
    obtain ⟨h1, h2, h3⟩ := proxyInv_run rs NewProxy proxyInv_newProxy
    obtain ⟨hlt, hcount⟩ := h1 pf hpf
    refine ⟨hcount, ?_⟩
    have hmem : (pf.proxyIPByte, pf.GetHostname) ∈
        (runRegistrations NewProxy rs).hostfileEntries := by
      rw [← List.count_pos_iff, hcount]
      omega
    exact (h3 _).mp hmem

/-- C7 witness: after the first registration of the test scenario, the
assigned forward (IP byte 1, port 9400, hostname `hostname.svc.local`)
has exactly one matching hostfile entry, and a matching `AddHost` call
was made. -/
theorem hostfile_invariant_witness :
    (runRegistrations NewProxy testRegistrations).hostfileEntries.count
        (((⟨"test", "hostname.svc.local", "", "8080", "8081", 9400, 1⟩ :
            ProxyForward)).proxyIPByte,
         ((⟨"test", "hostname.svc.local", "", "8080", "8081", 9400, 1⟩ :
            ProxyForward)).GetHostname) = 1
    ∧ (((⟨"test", "hostname.svc.local", "", "8080", "8081", 9400, 1⟩ :
            ProxyForward)).proxyIPByte,
       ((⟨"test", "hostname.svc.local", "", "8080", "8081", 9400, 1⟩ :
            ProxyForward)).GetHostname) ∈
        (runRegistrations NewProxy testRegistrations).hostfileCalls :=
  (hostfile_invariant testRegistrations).2
    (⟨"test", "hostname.svc.local", "", "8080", "8081", 9400, 1⟩ : ProxyForward)
    (by decide)

/-- C9 witness: a fourth registration under the already-present name
`test-2` does not grow the map. -/
theorem duplicate_name_allocation_witness :
    (AddProxyForward (runRegistrations NewProxy testRegistrations) ("test-2")
        (NewProxyForward ("test-2") ("hostname4.svc.local") ("") ("8083") ("8084"))).proxyForwards.length
      = (runRegistrations NewProxy testRegistrations).proxyForwards.length :=
  duplicate_name_allocation.1 _ _ _ (by decide)

/-! ### Environment composition lemmas -/

theorem lookupEnv_eq_none_of_not_any (e : List (String × String)) (k : String)
    (h : e.any (fun p => p.1 = k) = false) : lookupEnv e k = none := by
  induction e with
  | nil => rfl
  | cons p rest ih =>
      simp only [List.any_cons, Bool.or_eq_false_iff] at h
      obtain ⟨h₁, h₂⟩ := h
      have hp : ¬(p.1 = k) := by
        intro hEq
        simp [hEq] at h₁
      simp [lookupEnv, hp, ih h₂]

theorem lookupEnv_append_left (e₁ e₂ : List (String × String)) (k v : String)
    (h : lookupEnv e₁ k = some v) : lookupEnv (e₁ ++ e₂) k = some v := by
  induction e₁ with
  | nil => simp [lookupEnv] at h
  | cons p rest ih =>
      by_cases hp : p.1 = k
      · simp [lookupEnv, hp] at h ⊢
        exact h
      · simp [lookupEnv, hp] at h ⊢
        exact ih h

theorem lookupEnv_append_right (e₁ e₂ : List (String × String)) (k : String)
    (h : lookupEnv e₁ k = none) : lookupEnv (e₁ ++ e₂) k = lookupEnv e₂ k := by
  induction e₁ with
  | nil => rfl
  | cons p rest ih =>
      by_cases hp : p.1 = k
      · simp [lookupEnv, hp] at h
      · simp [lookupEnv, hp] at h ⊢
        exact ih h

theorem lookupEnv_map_replace_self (e : List (String × String)) (k v : String)
    (hany : e.any (fun p => p.1 = k) = true) :
    lookupEnv (e.map (fun p => if p.1 = k then (k, v) else p)) k = some v := by
  induction e with
  | nil => simp at hany
  | cons p rest ih =>
      by_cases hp : p.1 = k
      · simp [lookupEnv, hp]
      · have hany₂ : rest.any (fun p => p.1 = k) = true := by
          simpa [List.any_cons, hp] using hany
        simp [lookupEnv, hp, ih hany₂]

theorem lookupEnv_map_replace_ne (e : List (String × String)) (k v k' : String)
    (hk : k' ≠ k) :
    lookupEnv (e.map (fun p => if p.1 = k then (k, v) else p)) k' =
      lookupEnv e k' := by
  induction e with
  | nil => rfl
  | cons p rest ih =>
      by_cases hp : p.1 = k
      · have hpk : ¬(p.1 = k') := by
          rw [hp]
          exact fun h => hk h.symm
        have hkk : ¬(k = k') := fun h => hk h.symm
        simp [lookupEnv, hp, hpk, hkk, ih]
      · simp [lookupEnv, hp, ih]

theorem lookupEnv_setEnvVar_self (e : List (String × String)) (k v : String) :
    lookupEnv (setEnvVar e k v) k = some v := by
  by_cases hany : e.any (fun p => p.1 = k) = true
  · rw [setEnvVar, if_pos hany]
    exact lookupEnv_map_replace_self e k v hany
  · have hany₂ : e.any (fun p => p.1 = k) = false := by
      revert hany
      cases e.any (fun p => p.1 = k) <;> simp
    rw [setEnvVar, if_neg (by simp [hany₂])]
    rw [lookupEnv_append_right e _ k (lookupEnv_eq_none_of_not_any e k hany₂)]
    simp [lookupEnv]

theorem lookupEnv_setEnvVar_ne (e : List (String × String)) (k v k' : String)
    (hk : k' ≠ k) : lookupEnv (setEnvVar e k v) k' = lookupEnv e k' := by
  by_cases hany : e.any (fun p => p.1 = k) = true
  · rw [setEnvVar, if_pos hany]
    exact lookupEnv_map_replace_ne e k v k' hk
  · have hany₂ : e.any (fun p => p.1 = k) = false := by
      revert hany
      cases e.any (fun p => p.1 = k) <;> simp
    rw [setEnvVar, if_neg (by simp [hany₂])]
    cases hres : lookupEnv e k' with
    | some v₀ => exact lookupEnv_append_left e _ k' v₀ hres
    | none =>
        rw [lookupEnv_append_right e _ k' hres]
        have hkk : ¬(k = k') := fun h => hk h.symm
        simp [lookupEnv, hkk]

theorem lookupEnv_overlay_not_mem_keys (l : List (String × String)) :
    ∀ (e : List (String × String)) (k : String), (∀ kv ∈ l, kv.1 ≠ k) →
      lookupEnv (overlayEnv e l) k = lookupEnv e k := by
  induction l with
  | nil => intro e k _; rfl
  | cons kv rest ih =>
      intro e k h
      have h₁ : kv.1 ≠ k := h kv (List.mem_cons_self kv rest)
      have h₂ : ∀ x ∈ rest, x.1 ≠ k := fun x hx => h x (List.mem_cons_of_mem kv hx)
      show lookupEnv (overlayEnv (setEnvVar e kv.1 kv.2) rest) k = lookupEnv e k
      rw [ih _ _ h₂]
      exact lookupEnv_setEnvVar_ne e kv.1 kv.2 k (fun hEq => h₁ hEq.symm)

theorem lookupEnv_overlay_mem (l : List (String × String)) :
    ∀ (e : List (String × String)) (k v : String),
      (l.map Prod.fst).Nodup → (k, v) ∈ l →
        lookupEnv (overlayEnv e l) k = some v := by
  induction l with
  | nil =>
      intro e k v _ hm
      simp at hm
  | cons kv rest ih =>
      intro e k v hnd hm
      have hnd₂ : kv.1 ∉ rest.map Prod.fst ∧ (rest.map Prod.fst).Nodup := by
        rw [List.map_cons, List.nodup_cons] at hnd
        exact hnd
      rcases List.mem_cons.mp hm with hm₁ | hm₂
      · have hk : kv.1 = k := by rw [← hm₁]
        have hv : kv.2 = v := by rw [← hm₁]
        show lookupEnv (overlayEnv (setEnvVar e kv.1 kv.2) rest) k = some v
        have hknr : ∀ x ∈ rest, x.1 ≠ k := by
          intro x hx hEq
          apply hnd₂.1
          rw [hk, ← hEq]
          exact List.mem_map_of_mem Prod.fst hx
        rw [lookupEnv_overlay_not_mem_keys rest _ k hknr, ← hk, ← hv]
        exact lookupEnv_setEnvVar_self e kv.1 kv.2
      · exact ih _ k v hnd₂.2 hm₂

theorem lookupEnv_setEnvVar_isSome (e : List (String × String)) (k v k' : String)
    (h : (lookupEnv e k').isSome = true) :
    (lookupEnv (setEnvVar e k v) k').isSome = true := by
  by_cases hk : k' = k
  · subst hk
    rw [lookupEnv_setEnvVar_self]
    rfl
  · rw [lookupEnv_setEnvVar_ne e k v k' hk]
    exact h

theorem lookupEnv_overlay_isSome (l : List (String × String)) :
    ∀ (e : List (String × String)) (k : String), (lookupEnv e k).isSome = true →
      (lookupEnv (overlayEnv e l) k).isSome = true := by
  induction l with
  | nil => intro e k h; exact h
  | cons kv rest ih =>
      intro e k h
      exact ih _ k (lookupEnv_setEnvVar_isSome e kv.1 kv.2 k h)

theorem lookupEnv_overlay_mem_isSome (l : List (String × String)) :
    ∀ (e : List (String × String)) (k v : String), (k, v) ∈ l →
      (lookupEnv (overlayEnv e l) k).isSome = true := by
  induction l with
  | nil =>
      intro e k v hm
      simp at hm
  | cons kv rest ih =>
      intro e k v hm
      rcases List.mem_cons.mp hm with hm₁ | hm₂
      · have hk : kv.1 = k := by rw [← hm₁]
        show (lookupEnv (overlayEnv (setEnvVar e kv.1 kv.2) rest) k).isSome = true
        apply lookupEnv_overlay_isSome
        rw [← hk, lookupEnv_setEnvVar_self]
        rfl
      · exact ih _ k v hm₂

/-- C6: in the composed child environment, every key of the inline
`env` map is bound to its `env` value (so `env` overrides both the
env_file and the inherited environment), every key parsed from the
`env_file` is present, and an env_file key not overridden by `env`
keeps its env_file value. -/
theorem env_composition (inherited : List (String × String))
    (fileLines : List String) (env : List (String × String))
    (henv : (env.map Prod.fst).Nodup)
    (hfile : ((parseEnvFile fileLines).map Prod.fst).Nodup) :
    (∀ kv ∈ env,
        lookupEnv (composeEnv inherited fileLines env) kv.1 = some kv.2)
    ∧ (∀ kv ∈ parseEnvFile fileLines,
        (lookupEnv (composeEnv inherited fileLines env) kv.1).isSome = true)
    ∧ (∀ kv ∈ parseEnvFile fileLines, (∀ kv' ∈ env, kv'.1 ≠ kv.1) →
        lookupEnv (composeEnv inherited fileLines env) kv.1 = some kv.2) := by
  refine ⟨?_, ?_, ?_⟩
  · intro kv hkv
    obtain ⟨k, v⟩ := kv
    exact lookupEnv_overlay_mem env _ k v henv hkv
  · intro kv hkv
    obtain ⟨k, v⟩ := kv
    apply lookupEnv_overlay_isSome
    exact lookupEnv_overlay_mem_isSome (parseEnvFile fileLines) inherited k v hkv
  · intro kv hkv hni
    obtain ⟨k, v⟩ := kv
    unfold composeEnv
    rw [lookupEnv_overlay_not_mem_keys env _ k hni]
    exact lookupEnv_overlay_mem (parseEnvFile fileLines) inherited k v hfile hkv

/-- C6 witness: in the test scenario, `MY_ENVVAR_1` takes the inline
env value (overriding the inherited one), `MY_ENVFILE_VAR_2` is
present, and `MY_ENVFILE_VAR_1` keeps its env_file value. -/
theorem env_composition_witness :
    lookupEnv (composeEnv envInherited envFileLines envInline) ("MY_ENVVAR_1")
      = some ("value")
    ∧ (lookupEnv (composeEnv envInherited envFileLines envInline)
        ("MY_ENVFILE_VAR_2")).isSome = true
    ∧ lookupEnv (composeEnv envInherited envFileLines envInline)
        ("MY_ENVFILE_VAR_1") = some ("this is ok") :=
  ⟨(env_composition envInherited envFileLines envInline (by decide) (by decide)).1
      ("MY_ENVVAR_1", "value") (by decide),
   (env_composition envInherited envFileLines envInline (by decide) (by decide)).2.1
      ("MY_ENVFILE_VAR_2", "this is really good") (by decide),
   (env_composition envInherited envFileLines envInline (by decide) (by decide)).2.2
      ("MY_ENVFILE_VAR_1", "this is ok") (by decide) (by decide)⟩

/-! ### Retry lemmas -/

theorem isNextRetry_false_of_exceeds (ras : HttpResponse → Int × Bool) (prep : Bool)
    (r : WithRetryState) (inp : RetryInput) (h : r.maxRetries < r.attempts + 1) :
    (isNextRetry ras prep r inp).2 = false := by
  rcases inp with ⟨hreq, rp, er, f⟩
  cases hreq with
  | none => rfl
  | some req =>
      simp only [isNextRetry]
      by_cases hg : (rp.isNone && er.isNone) = true
      · rw [if_pos hg]
      · rw [if_neg hg, if_pos (show _ from h)]

theorem isNextRetry_false_of_nil (ras : HttpResponse → Int × Bool) (prep : Bool)
    (r : WithRetryState) (inp : RetryInput)
    (h : inp.httpReq = none ∨ (inp.resp = none ∧ inp.err = none)) :
    (isNextRetry ras prep r inp).2 = false := by
  rcases inp with ⟨hreq, rp, er, f⟩
  rcases h with h | ⟨h₁, h₂⟩
  · have h₃ : hreq = none := h
    subst h₃
    rfl
  · have h₃ : rp = none := h₁
    have h₄ : er = none := h₂
    subst h₃
    subst h₄
    cases hreq with
    | none => rfl
    | some req => simp [isNextRetry]

theorem isNextRetry_state (ras : HttpResponse → Int × Bool) (prep : Bool)
    (r : WithRetryState) (inp : RetryInput) :
    r.attempts ≤ (isNextRetry ras prep r inp).1.attempts
    ∧ (isNextRetry ras prep r inp).1.maxRetries = r.maxRetries := by
  rcases inp with ⟨hreq, rp, er, f⟩
  cases hreq with
  | none => exact ⟨le_refl _, rfl⟩
  | some req =>
      simp only [isNextRetry]
      repeat' split
      all_goals refine ⟨?_, rfl⟩
      all_goals simp

theorem runRetries_false_of_zero (ras : HttpResponse → Int × Bool) (prep : Bool)
    (inps : List RetryInput) :
    ∀ r : WithRetryState, r.maxRetries = 0 → 0 ≤ r.attempts →
      ∀ b ∈ (runRetries ras prep r inps).2, b = false := by
  induction inps with
  | nil =>
      intro r h0 ha b hb
      simp [runRetries] at hb
  | cons i rest ih =>
      intro r h0 ha b hb
      have hstep : (isNextRetry ras prep r i).2 = false :=
        isNextRetry_false_of_exceeds ras prep r i (by omega)
      have hstate := isNextRetry_state ras prep r i
      have hb₂ : b = (isNextRetry ras prep r i).2
          ∨ b ∈ (runRetries ras prep (isNextRetry ras prep r i).1 rest).2 := by
        have hb₃ : b ∈ (isNextRetry ras prep r i).2 ::
            (runRetries ras prep (isNextRetry ras prep r i).1 rest).2 := hb
        exact List.mem_cons.mp hb₃
      rcases hb₂ with hb₃ | hb₃
      · exact hb₃.trans hstep
      · exact ih _ (hstate.2.trans h0) (le_trans ha hstate.1) b hb₃

/-- C10: `SetMaxRetries` clamps a negative argument to 0; `IsNextRetry`
returns false whenever the incremented attempt count would exceed
`maxRetries` (so any sequence of calls with `maxRetries` 0 never returns
true), and returns false when the HTTP request is nil or both response
and error are nil. -/
theorem withRetry_ceiling :
    (∀ (r : WithRetryState) (m : Int), m < 0 → (setMaxRetries r m).maxRetries = 0)
    ∧ (∀ (ras : HttpResponse → Int × Bool) (prep : Bool) (r : WithRetryState)
        (inp : RetryInput), r.maxRetries < r.attempts + 1 →
          (isNextRetry ras prep r inp).2 = false)
    ∧ (∀ (ras : HttpResponse → Int × Bool) (prep : Bool) (r : WithRetryState)
        (inp : RetryInput),
          inp.httpReq = none ∨ (inp.resp = none ∧ inp.err = none) →
            (isNextRetry ras prep r inp).2 = false)
    ∧ (∀ (ras : HttpResponse → Int × Bool) (prep : Bool) (inps : List RetryInput)
        (r : WithRetryState), r.maxRetries = 0 → 0 ≤ r.attempts →
          ∀ b ∈ (runRetries ras prep r inps).2, b = false) := by
  refine ⟨?_, ?_, ?_, ?_⟩
  · intro r m hm
    show (if m < 0 then 0 else m) = 0
    rw [if_pos hm]
  · exact fun ras prep r inp h => isNextRetry_false_of_exceeds ras prep r inp h
  · exact fun ras prep r inp h => isNextRetry_false_of_nil ras prep r inp h
  · exact fun ras prep inps r h0 ha => runRetries_false_of_zero ras prep inps r h0 ha

/-- C10 witness: `SetMaxRetries(-2)` yields ceiling 0; with ceiling 0 a
retryable 500 response is not retried; nil inputs are not retried; and
a one-call sequence under ceiling 0 yields only false results. -/
theorem withRetry_ceiling_witness :
    (setMaxRetries { maxRetries := 3, attempts := 0, retryAfter := none } (-2)).maxRetries = 0
    ∧ (isNextRetry (fun _ => (1, true)) false
        { maxRetries := 0, attempts := 0, retryAfter := none }
        { httpReq := some { url := "u" }, resp := some retryAfterResponse,
          err := none, f := none }).2 = false
    ∧ (isNextRetry (fun _ => (1, true)) false
        { maxRetries := 5, attempts := 0, retryAfter := none }
        { httpReq := none, resp := none, err := none, f := none }).2 = false
    ∧ false = false :=
  ⟨withRetry_ceiling.1 { maxRetries := 3, attempts := 0, retryAfter := none } (-2)
      (by decide),
   withRetry_ceiling.2.1 (fun _ => (1, true)) false
      { maxRetries := 0, attempts := 0, retryAfter := none }
      { httpReq := some { url := "u" }, resp := some retryAfterResponse,
        err := none, f := none } (by decide),
   withRetry_ceiling.2.2.1 (fun _ => (1, true)) false
      { maxRetries := 5, attempts := 0, retryAfter := none }
      { httpReq := none, resp := none, err := none, f := none } (Or.inl rfl),
   withRetry_ceiling.2.2.2 (fun _ => (1, true)) false
      [{ httpReq := some { url := "u" }, resp := some retryAfterResponse,
         err := none, f := none }]
      { maxRetries := 0, attempts := 0, retryAfter := none } rfl (by decide)
      false (by decide)⟩

end Monday
